import Mathlib

/-!
Shallow embedding of `src/cornac/models/hrdr/hrdr_bpr.py` (the HRDR-BPR
recommendation model): the forward computation graph assembled in
`Model.__init__` and the post-training weight materialization
`Model.get_weights`, over idealized real arithmetic.

Conventions: a vector is a `List ℝ`, a matrix is a `List (List ℝ)` (a list
of rows).  A Keras `Dense(units)` layer is a weight matrix (one row per
output unit) plus a bias vector; `Dense(1)` is a single weight vector plus
a scalar bias.  Batched tensor operations are embedded per entity (the
source computes each batch row independently).
-/

namespace HRDR

noncomputable section

/-- Dot product of two vectors (kernel row applied to an input). -/
def dot (w x : List ℝ) : ℝ := (List.zipWith (fun a b => a * b) w x).sum

/-- Element-wise product, `tf.multiply`. -/
def hadamard (a b : List ℝ) : List ℝ := List.zipWith (fun x y => x * y) a b

/-- Pointwise vector sum (a shorter operand is treated as zero-extended;
the source only ever adds vectors of equal width). -/
def vecAdd : List ℝ → List ℝ → List ℝ
  | [], b => b
  | x :: xs, [] => x :: xs
  | x :: xs, y :: ys => (x + y) :: vecAdd xs ys

/-- Scale a vector by a scalar (attention weight applied to one review
feature slot, `layers.Multiply` with a broadcast scalar). -/
def vecScale (c : ℝ) (v : List ℝ) : List ℝ := v.map (fun t => c * t)

/-- Sum a list of vectors: `tf.reduce_sum(_, 1)` over the review axis. -/
def sumAlongSlots (vs : List (List ℝ)) : List ℝ := vs.foldr vecAdd []

/-- ReLU activation applied pointwise. -/
def relu (v : List ℝ) : List ℝ := v.map (fun t => max t 0)

/-- Parameters of a Keras `Dense` layer with `use_bias=True`:
`weights` has one row per output unit, `bias` one entry per output unit. -/
structure DenseParams where
  weights : List (List ℝ)
  bias : List ℝ

/-- Apply a `Dense` layer (`use_bias=True`, no activation). -/
def dense (p : DenseParams) (x : List ℝ) : List ℝ :=
  List.zipWith (fun w b => dot w x + b) p.weights p.bias

/-- Apply a `Dense` layer followed by ReLU (`activation="relu"`). -/
def denseRelu (p : DenseParams) (x : List ℝ) : List ℝ := relu (dense p x)

/-- Parameters of a `BatchNormalization` layer: scale `gamma`, shift
`beta`, and the running statistics `mean` and `variance` (one entry per
channel).  Keras uses epsilon 1e-3 by default. -/
structure BNParams where
  gamma : List ℝ
  beta : List ℝ
  mean : List ℝ
  var : List ℝ

/-- `BatchNormalization` in inference mode: normalize with the running
statistics, then scale and shift.  (Training-mode batch statistics and
the statistics update are outside this embedding; see the materialization
claims, which concern inference mode.) -/
def batchNorm (p : BNParams) (x : List ℝ) : List ℝ :=
  List.zipWith
    (fun xi q => q.1.1 * ((xi - q.2.1) / Real.sqrt (q.2.2 + 1e-3)) + q.1.2)
    x ((p.gamma.zip p.beta).zip (p.mean.zip p.var))

/-- Parameters of the rating tower (`l_user_mlp` / `l_item_mlp`, lines
81-92): three `Dense` layers (widths `f`, `f // 2`, `n_filters`, each with
ReLU) followed by `BatchNormalization`. -/
structure MLPParams where
  d1 : DenseParams
  d2 : DenseParams
  d3 : DenseParams
  bn : BNParams

/-- The rating tower: `Sequential([Dense(f, relu), Dense(f // 2, relu),
Dense(n_filters, relu), BatchNormalization()])` applied to a raw rating
vector (lines 81-95). -/
def ratingTower (p : MLPParams) (x : List ℝ) : List ℝ :=
  batchNorm p.bn (denseRelu p.d3 (denseRelu p.d2 (denseRelu p.d1 x)))

/-- Parameters of one attention head (lines 97-104 / 108-115 / 116-123):
a hidden `Dense(attention_size, relu, use_bias=True)` followed by
`Dense(1, activation=None, use_bias=True)` producing one logit per slot. -/
structure AttnParams where
  hidden : DenseParams
  outW : List ℝ
  outB : ℝ

/-- Raw attention logits: for each review feature slot `h`, broadcast
multiply with the entity rating feature `rh`, pass through the hidden
layer and the scalar output layer. -/
def attnLogits (p : AttnParams) (hs : List (List ℝ)) (rh : List ℝ) : List ℝ :=
  hs.map (fun h => dot p.outW (relu (dense p.hidden (hadamard h rh))) + p.outB)

/-- Helper for `maskedSoftmax`: the first `n` slots receive
`exp(logit) / Z`, the remaining slots receive exactly `0`. -/
def maskedSoftmaxAux (Z : ℝ) : List ℝ → ℕ → List ℝ
  | [], _ => []
  | _ :: ls, 0 => 0 :: maskedSoftmaxAux Z ls 0
  | l :: ls, n + 1 => (Real.exp l / Z) :: maskedSoftmaxAux Z ls n

/-- Masked softmax over the review axis: `layers.Softmax(axis=1)(logits,
mask)` with `mask = tf.sequence_mask(num_reviews, maxlen)` (lines 105-106,
124-127).  Idealized semantics of the Keras masked softmax: slots below
the valid count are softmax-normalized over the valid slots, slots at or
beyond the count get exactly zero weight. -/
def maskedSoftmax (logits : List ℝ) (count : ℕ) : List ℝ :=
  maskedSoftmaxAux (((logits.take count).map Real.exp).sum) logits count

/-- Inverted-dropout applied to a vector: in training mode multiply by the
random keep/scale mask drawn for this call, in inference mode the identity
(`layers.Dropout(rate)`, lines 130, 135, 140; the mask models one
realization of the layer's Bernoulli draw, pre-scaled by `1/(1-rate)`). -/
def dropout (training : Bool) (mask : List ℝ) (x : List ℝ) : List ℝ :=
  if training then List.zipWith (fun m t => m * t) mask x else x

/-- Modelled from the spec: the external text encoder
(`TextProcessor` from `cornac.models.narre.narre`, not under `src/`)
composed with the word-embedding lookup maps a batch of token-id reviews
to one feature vector of width `n_filters` per review, and was constructed
with a `dropout_rate`, so in training mode a dropout mask is applied to
its output features.  The encoding proper is kept abstract (a function
argument); the dropout realization is one mask vector per review slot.
The source calls this processor with the literal `training=True` at graph
construction time (lines 77-79); under Keras functional-API semantics an
explicit `training` argument supplied when the graph is built is frozen
into the graph and is NOT overridden by the `training` flag of a later
model invocation, so these layers always run in training mode.  The
frozen flag is therefore embedded as the literal `true` at every use
site. -/
def textProcessor (encode : List (List ℕ) → List (List ℝ)) (training : Bool)
    (mask : List (List ℝ)) (revs : List (List ℕ)) : List (List ℝ) :=
  let feats := encode revs
  if training then List.zipWith (fun m f => List.zipWith (fun a b => a * b) m f) mask feats
  else feats

/-- All trainable state of the graph built by `Model.__init__`, plus the
hyperparameters the `Model` object stores on `self`.  Note the separate
parameter fields for the positive-item branch (`aItemI`, `oi`) and the
negative-item branch (`aItemJ`, `oj`): lines 108-123 construct fresh
`layers.Dense` instances for each branch, and lines 134-143 construct the
distinct projections named `oi` and `oj`, so these are independent
parameters (in contrast with `itemMLP`, `itemEncode`, `itemEmb`,
`itemBias` and `w1`, each constructed once and reused by both branches). -/
structure HRDRParams where
  nUsers : ℕ
  nItems : ℕ
  nFilters : ℕ
  nFactors : ℕ
  idEmbeddingSize : ℕ
  userEncode : List (List ℕ) → List (List ℝ)
  itemEncode : List (List ℕ) → List (List ℝ)
  userEmb : List (List ℝ)
  itemEmb : List (List ℝ)
  userBias : List ℝ
  itemBias : List ℝ
  globalBias : ℝ
  userMLP : MLPParams
  itemMLP : MLPParams
  aUser : AttnParams
  aItemI : AttnParams
  aItemJ : AttnParams
  ou : DenseParams
  oi : DenseParams
  oj : DenseParams
  w1 : List ℝ

/-- The per-entity inputs of the graph for one user or one item: the raw
rating vector, the (padded) token-id reviews, and the valid review count. -/
structure EntityData where
  rating : List ℝ
  reviews : List (List ℕ)
  numReviews : ℕ

/-- One realization of the dropout randomness consumed by one entity
branch of the graph: the text-processor mask (one vector per review slot)
and the aggregator dropout mask. -/
structure Noise where
  textMask : List (List ℝ)
  aggMask : List ℝ

/-- Per-review features of a user branch: embedding lookup plus
`user_text_processor(..., training=True)` (line 77, frozen flag). -/
def userReviewFeats (θ : HRDRParams) (ν : Noise) (d : EntityData) : List (List ℝ) :=
  textProcessor θ.userEncode true ν.textMask d.reviews

/-- Per-review features of an item branch: `item_text_processor(...,
training=True)` (lines 78-79, frozen flag; one processor instance shared
by both item branches). -/
def itemReviewFeats (θ : HRDRParams) (ν : Noise) (d : EntityData) : List (List ℝ) :=
  textProcessor θ.itemEncode true ν.textMask d.reviews

/-- `user_rating_h = l_user_mlp(i_user_rating)` (line 93). -/
def userRatingFeat (θ : HRDRParams) (d : EntityData) : List ℝ :=
  ratingTower θ.userMLP d.rating

/-- `item_i_rating_h = l_item_mlp(i_item_i_rating)` (line 94). -/
def itemRatingFeatI (θ : HRDRParams) (d : EntityData) : List ℝ :=
  ratingTower θ.itemMLP d.rating

/-- `item_j_rating_h = l_item_mlp(i_item_j_rating)` (line 95; the same
`l_item_mlp` instance as the positive branch). -/
def itemRatingFeatJ (θ : HRDRParams) (d : EntityData) : List ℝ :=
  ratingTower θ.itemMLP d.rating

/-- `user_attention` (lines 97-106): logits from the user attention head,
masked softmax over the review axis. -/
def userAttention (θ : HRDRParams) (ν : Noise) (d : EntityData) : List ℝ :=
  maskedSoftmax (attnLogits θ.aUser (userReviewFeats θ ν d) (userRatingFeat θ d))
    d.numReviews

/-- `item_i_attention` (lines 108-115, 124-125): the positive-item
attention head (its own fresh `Dense` layers, parameters `aItemI`). -/
def itemAttentionI (θ : HRDRParams) (ν : Noise) (d : EntityData) : List ℝ :=
  maskedSoftmax (attnLogits θ.aItemI (itemReviewFeats θ ν d) (itemRatingFeatI θ d))
    d.numReviews

/-- `item_j_attention` (lines 116-123, 126-127): the negative-item
attention head (its own fresh `Dense` layers, parameters `aItemJ`). -/
def itemAttentionJ (θ : HRDRParams) (ν : Noise) (d : EntityData) : List ℝ :=
  maskedSoftmax (attnLogits θ.aItemJ (itemReviewFeats θ ν d) (itemRatingFeatJ θ d))
    d.numReviews

/-- `ou` (lines 129-133): attention-weighted sum of user review features,
dropout, projection to width `n_factors`. -/
def userOpinion (θ : HRDRParams) (training : Bool) (ν : Noise) (d : EntityData) : List ℝ :=
  dense θ.ou (dropout training ν.aggMask
    (sumAlongSlots (List.zipWith vecScale (userAttention θ ν d) (userReviewFeats θ ν d))))

/-- `oi` (lines 134-138): positive-branch opinion vector, projection
parameters `oi`. -/
def itemOpinionI (θ : HRDRParams) (training : Bool) (ν : Noise) (d : EntityData) : List ℝ :=
  dense θ.oi (dropout training ν.aggMask
    (sumAlongSlots (List.zipWith vecScale (itemAttentionI θ ν d) (itemReviewFeats θ ν d))))

/-- `oj` (lines 139-143): negative-branch opinion vector, projection
parameters `oj` (a distinct `Dense` instance from `oi`). -/
def itemOpinionJ (θ : HRDRParams) (training : Bool) (ν : Noise) (d : EntityData) : List ℝ :=
  dense θ.oj (dropout training ν.aggMask
    (sumAlongSlots (List.zipWith vecScale (itemAttentionJ θ ν d) (itemReviewFeats θ ν d))))

/-- `pu` (lines 145-149): concatenation of rating feature, opinion vector
and the id embedding of user `u`. -/
def pu (θ : HRDRParams) (training : Bool) (ν : Noise) (u : ℕ) (d : EntityData) : List ℝ :=
  userRatingFeat θ d ++ (userOpinion θ training ν d ++ θ.userEmb.getD u [])

/-- `qi` (lines 151-155): positive-item fused representation. -/
def qi (θ : HRDRParams) (training : Bool) (ν : Noise) (i : ℕ) (d : EntityData) : List ℝ :=
  itemRatingFeatI θ d ++ (itemOpinionI θ training ν d ++ θ.itemEmb.getD i [])

/-- `qj` (lines 156-160): negative-item fused representation. -/
def qj (θ : HRDRParams) (training : Bool) (ν : Noise) (j : ℕ) (d : EntityData) : List ℝ :=
  itemRatingFeatJ θ d ++ (itemOpinionJ θ training ν d ++ θ.itemEmb.getD j [])

/-- `r_i` (lines 162-169): `W1(pu * qi) + user_bias[u] + item_bias[i]`
followed by `AddGlobalBias`.  `W1 = Dense(1, activation=None,
use_bias=False)` is a bias-free weight vector applied to the Hadamard
product. -/
def r_i (θ : HRDRParams) (training : Bool) (νu νi : Noise) (u : ℕ) (du : EntityData)
    (i : ℕ) (di : EntityData) : ℝ :=
  dot θ.w1 (hadamard (pu θ training νu u du) (qi θ training νi i di))
    + θ.userBias.getD u 0 + θ.itemBias.getD i 0 + θ.globalBias

/-- `r_j` (lines 170-175): the negative-branch score, sharing `pu`, `W1`,
`user_bias`, `item_bias` and the global bias with the positive branch. -/
def r_j (θ : HRDRParams) (training : Bool) (νu νj : Noise) (u : ℕ) (du : EntityData)
    (j : ℕ) (dj : EntityData) : ℝ :=
  dot θ.w1 (hadamard (pu θ training νu u du) (qj θ training νj j dj))
    + θ.userBias.getD u 0 + θ.itemBias.getD j 0 + θ.globalBias

/-- `tf.nn.sigmoid`. -/
def sigmoid (x : ℝ) : ℝ := 1 / (1 + Real.exp (-x))

/-- One training example of the pairwise objective: user, positive item,
negative item, each with its graph inputs and its dropout realization. -/
structure TrainExample where
  u : ℕ
  du : EntityData
  nuU : Noise
  i : ℕ
  di : EntityData
  nuI : Noise
  j : ℕ
  dj : EntityData
  nuJ : Noise

/-- `x_ij = tf.reduce_mean(-tf.math.log(tf.nn.sigmoid(r_i - r_j)))`
(line 176): the graph's training output over a batch. -/
def x_ij (θ : HRDRParams) (training : Bool) (batch : List TrainExample) : ℝ :=
  let vals := batch.map (fun e =>
    -Real.log (sigmoid (r_i θ training e.nuU e.nuI e.u e.du e.i e.di
      - r_j θ training e.nuU e.nuJ e.u e.du e.j e.dj)))
  vals.sum / vals.length

/-! ### Word-embedding matrix construction (`Model.__init__`, lines 35-50) -/

/-- Modelled from the spec: `cornac.utils.get_rng(seed)` (not under
`src/`) builds a random-generator object from an integer seed; the
generator state is represented by the seed itself. -/
def get_rng (seed : ℕ) : ℕ := seed

/-- `embedding_matrix[:4, :] = np.zeros((4, self.embedding_size))`
(line 40): rows 0-3 of the word-embedding matrix are overwritten with the
zero vector.  Domain: the matrix has at least 4 rows, so all four writes
land in range — the vocabulary always holds at least the four special
tokens; on a smaller matrix the source raises a broadcast `ValueError`
instead, so matrices with fewer than 4 rows are outside the modelled
domain and no theorem below evaluates this definition there. -/
def zeroReserved (embeddingSize : ℕ) (M : List (List ℝ)) : List (List ℝ) :=
  ((((M.set 0 (List.replicate embeddingSize 0)).set 1
    (List.replicate embeddingSize 0)).set 2
    (List.replicate embeddingSize 0)).set 3
    (List.replicate embeddingSize 0))

/-- The pretrained-embedding override loop (lines 42-48): for every
`(word, idx)` of `vocab.tok2idx`, if `pretrained_word_embeddings.get(word)`
is present, row `idx` is overwritten with it, otherwise the OOV counter is
incremented.  Returns the updated matrix and `oov_count`. -/
def applyPretrained (M : List (List ℝ)) (vocab : List (String × ℕ))
    (pre : String → Option (List ℝ)) : List (List ℝ) × ℕ :=
  vocab.foldl
    (fun acc wi =>
      match pre wi.1 with
      | some v => (acc.1.set wi.2 v, acc.2)
      | none => (acc.1, acc.2 + 1))
    (M, 0)

/-- Lines 35-50 of `Model.__init__`: `self.rng` is assigned only inside
`if seed is not None:` (lines 35-36), yet line 39 reads `self.rng`
unconditionally to draw the uniform word-embedding initialization, so a
missing seed raises `AttributeError` before any graph layer is built.
`draw rng` models `uniform(shape=(n_vocab, embedding_size), low=-0.5,
high=0.5, random_state=rng)` (`cornac.utils.init_utils.uniform`, not
under `src/`, kept abstract); the drawn matrix then has rows 0-3 zeroed
and the optional pretrained override applied. -/
def buildEmbeddingMatrix (draw : ℕ → List (List ℝ)) (seed : Option ℕ)
    (embeddingSize : ℕ) (vocab : List (String × ℕ))
    (pre : Option (String → Option (List ℝ))) : Except String (List (List ℝ) × ℕ) :=
  match seed.map get_rng with
  | none => Except.error "AttributeError: Model object has no attribute rng"
  | some rng =>
    let M := zeroReserved embeddingSize (draw rng)
    match pre with
    | none => Except.ok (M, 0)
    | some p => Except.ok (applyPretrained M vocab p)

/-! ### Weight materialization (`Model.get_weights`, lines 195-214) -/

/-- Fancy-index row assignment `M[ids] = rows` on a numpy array: each id
is paired with its row and written in order (an id out of range is a
no-op for `List.set`; `get_weights` only ever passes in-range ids). -/
def setRows (M : List (List ℝ)) (ids : List ℕ) (rows : List (List ℝ)) : List (List ℝ) :=
  (List.zip ids rows).foldl (fun acc p => acc.set p.1 p.2) M

/-- Right-pad a vector with zeros to width `n`
(`A[batch_items, :item_attention.shape[1]] = item_attention` writes the
realized attention columns and leaves the zero-initialized tail). -/
def padTo (n : ℕ) (v : List ℝ) : List ℝ := v ++ List.replicate (n - v.length) 0

/-- Width of the fused representations:
`self.n_filters + self.n_factors + self.id_embedding_size`. -/
def fusedDim (θ : HRDRParams) : ℕ := θ.nFilters + θ.nFactors + θ.idEmbeddingSize

/-- The user loop of `get_weights` (lines 198, 201-204): `P` is
`np.zeros((n_users, D))`; for each batch of user ids, the
`user_attention_review_pooling` sub-model (output `pu`) is evaluated with
`training=False` on that batch's data and scattered into `P`.
`udata` gives each user's inputs as fetched by `get_data` (from
`cornac.models.hrdr.hrdr`, not under `src/`, modelled from the spec:
up to `max_num_review` reviews, the review count and the rating vector),
and `νU` gives the dropout realization of each user's evaluation (the
text-processor layers keep their frozen `training=True` flag, every other
layer runs in inference mode). -/
def materializeP (θ : HRDRParams) (udata : ℕ → EntityData) (νU : ℕ → Noise)
    (userBatches : List (List ℕ)) : List (List ℝ) :=
  userBatches.foldl
    (fun P batch => setRows P batch (batch.map (fun u => pu θ false (νU u) u (udata u))))
    (List.replicate θ.nUsers (List.replicate (fusedDim θ) 0))

/-- The `Q` part of the item loop of `get_weights` (lines 199, 205-208):
`Q` is `np.zeros((n_items, D))`, filled with the positive-branch fused
representation `qi` evaluated with `training=False`.  (The source fills
`Q` and `A` in one loop; the two writes touch disjoint arrays, so they
are embedded as two folds over the same batches.) -/
def materializeQ (θ : HRDRParams) (idata : ℕ → EntityData) (νI : ℕ → Noise)
    (itemBatches : List (List ℕ)) : List (List ℝ) :=
  itemBatches.foldl
    (fun Q batch => setRows Q batch (batch.map (fun i => qi θ false (νI i) i (idata i))))
    (List.replicate θ.nItems (List.replicate (fusedDim θ) 0))

/-- The `A` part of the item loop of `get_weights` (lines 200, 209): `A`
is `np.zeros((n_items, max_num_review))`; each item's row receives the
positive-branch attention weights `item_i_attention`, zero-padded to
`max_num_review` columns. -/
def materializeA (θ : HRDRParams) (idata : ℕ → EntityData) (νI : ℕ → Noise)
    (itemBatches : List (List ℕ)) (maxNumReview : ℕ) : List (List ℝ) :=
  itemBatches.foldl
    (fun A batch =>
      setRows A batch (batch.map (fun i => padTo maxNumReview (itemAttentionI θ (νI i) (idata i)))))
    (List.replicate θ.nItems (List.replicate maxNumReview 0))

/-- The full return value of `get_weights` (lines 210-214): the scattered
matrices plus the parameters read directly off the trained layers
(`W1`, `user_bias`, `item_bias`, `global_bias`). -/
def get_weights (θ : HRDRParams) (udata idata : ℕ → EntityData) (νU νI : ℕ → Noise)
    (userBatches itemBatches : List (List ℕ)) (maxNumReview : ℕ) :
    List (List ℝ) × List (List ℝ) × List ℝ × List ℝ × List ℝ × ℝ × List (List ℝ) :=
  (materializeP θ udata νU userBatches,
   materializeQ θ idata νI itemBatches,
   θ.w1, θ.userBias, θ.itemBias, θ.globalBias,
   materializeA θ idata νI itemBatches maxNumReview)

/-- Serving-time scoring from the materialized matrices:
`W1 · (P[u] ⊙ Q[i]) + bu[u] + bi[i] + mu` (spec §4.7). -/
def servingScore (P Q : List (List ℝ)) (w1 bu bi : List ℝ) (mu : ℝ) (u i : ℕ) : ℝ :=
  dot w1 (hadamard (P.getD u []) (Q.getD i [])) + bu.getD u 0 + bi.getD i 0 + mu

/-! ### Spec-side formulations (written from the spec's words, for the
refinement claims; compared against the code-side definitions above) -/

/-- Spec §4.6: `score(pu, q) = linear_no_bias(pu ⊙ q) + bias[entity] +
bias[item] + global_bias`, with `linear_no_bias` a single weight vector
`W1` and no additive term. -/
def specScore (θ : HRDRParams) (puv q : List ℝ) (u iid : ℕ) : ℝ :=
  dot θ.w1 (hadamard puv q) + θ.userBias.getD u 0 + θ.itemBias.getD iid 0 + θ.globalBias

/-- Spec §4.6: the training loss is the mean over the batch of
`-log(sigmoid(score_i - score_j))`, where both branch scores share the
same `pu`, the same `W1` and the same user-bias lookup. -/
def specLoss (θ : HRDRParams) (training : Bool) (batch : List TrainExample) : ℝ :=
  let vals := batch.map (fun e =>
    let puv := pu θ training e.nuU e.u e.du;
    -Real.log (sigmoid
      (specScore θ puv (qi θ training e.nuI e.i e.di) e.u e.i
        - specScore θ puv (qj θ training e.nuJ e.j e.dj) e.u e.j)))
  vals.sum / vals.length

/-! ### Well-formedness of stored parameters (the shape contract a trained
Keras layer satisfies by construction) -/

/-- A `Dense(outs)` layer built on an `ins`-wide input: `outs` kernel rows
of width `ins` and `outs` bias entries. -/
def DenseWF (p : DenseParams) (ins outs : ℕ) : Prop :=
  p.weights.length = outs ∧ p.bias.length = outs ∧ ∀ r ∈ p.weights, r.length = ins

/-- A `BatchNormalization` layer over `n` channels. -/
def BNWF (p : BNParams) (n : ℕ) : Prop :=
  p.gamma.length = n ∧ p.beta.length = n ∧ p.mean.length = n ∧ p.var.length = n

/-- The rating tower's shape contract (lines 81-92): layer widths `f`,
`f // 2` (Python floor division) and `nf`, batch normalization over `nf`
channels, first layer reading an `ins`-wide rating vector. -/
def MLPWF (p : MLPParams) (ins f nf : ℕ) : Prop :=
  DenseWF p.d1 ins f ∧ DenseWF p.d2 f (f / 2) ∧ DenseWF p.d3 (f / 2) nf ∧ BNWF p.bn nf

/-! ### Concrete instances used to evaluate the embedding on closed inputs -/

/-- A one-unit dense layer with kernel `[[1]]` and bias `[0]`. -/
def denseOne : DenseParams := ⟨[[1]], [0]⟩

/-- A one-unit dense layer with kernel `[[2]]` and bias `[0]`. -/
def denseDouble : DenseParams := ⟨[[2]], [0]⟩

/-- A two-unit dense layer on a one-wide input. -/
def denseTwo : DenseParams := ⟨[[1], [1]], [0, 0]⟩

/-- A one-unit dense layer on a two-wide input. -/
def denseTwoIn : DenseParams := ⟨[[1, 1]], [0]⟩

/-- Identity-like batch normalization parameters over one channel. -/
def bnOne : BNParams := ⟨[1], [0], [0], [1]⟩

/-- A rating tower with widths `f = 2`, `f // 2 = 1`, `n_filters = 1` on a
one-wide rating vector. -/
def mlpW : MLPParams := ⟨denseTwo, denseTwoIn, denseOne, bnOne⟩

/-- A one-slot attention head on one-wide features. -/
def attnOne : AttnParams := ⟨denseOne, [1], 0⟩

/-- A text encoder sending every review to the one-wide feature `[1]`. -/
def encodeOne : List (List ℕ) → List (List ℝ) := fun revs => revs.map (fun _ => [1])

/-- A concrete parameter assignment with one user, one item and all widths
one (`n_filters = n_factors = id_embedding_size = 1`); the positive-branch
projection `oi` has kernel `[[1]]` while the negative-branch projection
`oj` has kernel `[[2]]` (the two branches hold independent parameters in
the source, so this is a reachable assignment of the trainable state). -/
def thetaW : HRDRParams :=
  ⟨1, 1, 1, 1, 1, encodeOne, encodeOne, [[0]], [[0]], [0.1], [0.1], 3,
   mlpW, mlpW, attnOne, attnOne, attnOne, denseOne, denseOne, denseDouble, [1]⟩

/-- One entity with a one-wide rating vector, a single stored review and
review count 1. -/
def dataW : EntityData := ⟨[1], [[0]], 1⟩

/-- A dropout realization whose text-processor mask is the identity. -/
def noiseW : Noise := ⟨[[1]], [1]⟩

/-- A second dropout realization, with text-processor mask `[[2]]`. -/
def noiseW2 : Noise := ⟨[[2]], [1]⟩

/-- A five-token vocabulary (matching a five-row embedding matrix, so
line 40's zeroing is in range) whose token "a" sits at reserved row 0. -/
def vocabC : List (String × ℕ) := [("a", 0), ("b", 1), ("c", 2), ("d", 3), ("e", 4)]

/-- A pretrained mapping containing the reserved-row token "a". -/
def preC : String → Option (List ℝ) := fun w => if w = "a" then some [1] else none

/-- Vocabulary for witnesses: token "a" at row 0, token "b" at row 4. -/
def vocabB : List (String × ℕ) := [("a", 0), ("b", 4)]

/-- A pretrained mapping covering only token "b" (row 4). -/
def preB : String → Option (List ℝ) := fun w => if w = "b" then some [9] else none

/-! ### Lemmas about the masked softmax -/

theorem maskedSoftmaxAux_length (Z : ℝ) (ls : List ℝ) (n : ℕ) :
    (maskedSoftmaxAux Z ls n).length = ls.length := by
  induction ls generalizing n with
  | nil => cases n <;> rfl
  | cons l t ih => cases n <;> simp [maskedSoftmaxAux, ih]

theorem maskedSoftmaxAux_getD_of_le (Z : ℝ) (ls : List ℝ) (n k : ℕ) (h : n ≤ k) :
    (maskedSoftmaxAux Z ls n).getD k 0 = 0 := by
  induction ls generalizing n k with
  | nil => cases n <;> simp [maskedSoftmaxAux]
  | cons l t ih =>
    cases n with
    | zero =>
      cases k with
      | zero => simp [maskedSoftmaxAux]
      | succ k => simpa [maskedSoftmaxAux] using ih 0 k (Nat.zero_le _)
    | succ n =>
      cases k with
      | zero => omega
      | succ k => simpa [maskedSoftmaxAux] using ih n k (Nat.le_of_succ_le_succ h)

theorem maskedSoftmaxAux_take_sum (Z : ℝ) (ls : List ℝ) (n : ℕ) :
    ((maskedSoftmaxAux Z ls n).take n).sum = ((ls.take n).map Real.exp).sum / Z := by
  induction ls generalizing n with
  | nil => cases n <;> simp [maskedSoftmaxAux]
  | cons l t ih =>
    cases n with
    | zero => simp
    | succ n =>
      simp [maskedSoftmaxAux, ih n, div_add_div_same]

theorem maskedSoftmax_length (logits : List ℝ) (count : ℕ) :
    (maskedSoftmax logits count).length = logits.length :=
  maskedSoftmaxAux_length _ _ _

/-- Every slot at index at or beyond the valid review count carries
exactly zero attention weight. -/
theorem maskedSoftmax_getD_of_le (logits : List ℝ) (count k : ℕ) (h : count ≤ k) :
    (maskedSoftmax logits count).getD k 0 = 0 :=
  maskedSoftmaxAux_getD_of_le _ _ _ _ h

/-- With at least one valid review, the attention weights over the valid
slots sum to exactly 1. -/
theorem maskedSoftmax_take_sum (logits : List ℝ) (count : ℕ)
    (h1 : 1 ≤ count) (h2 : count ≤ logits.length) :
    ((maskedSoftmax logits count).take count).sum = 1 := by
  have hne : (logits.take count).map Real.exp ≠ [] := by
    have hlen : ((logits.take count).map Real.exp).length = count := by
      simp [List.length_take, Nat.min_eq_left h2]
    intro hcon
    rw [hcon] at hlen
    simp at hlen
    omega
  have hpos : 0 < ((logits.take count).map Real.exp).sum := by
    refine List.sum_pos _ ?_ hne
    intro x hx
    rcases List.mem_map.mp hx with ⟨a, _, rfl⟩
    exact Real.exp_pos a
  rw [maskedSoftmax, maskedSoftmaxAux_take_sum]
  exact div_self (ne_of_gt hpos)

/-! ### Lemmas about scattered row assignment -/

theorem getD_replicate_of_lt {α : Type _} (a d : α) (n u : ℕ) (h : u < n) :
    (List.replicate n a).getD u d = a := by
  simp [List.getD_eq_getElem?_getD, List.getElem?_replicate, h]

theorem getD_set_ne (M : List (List ℝ)) (i u : ℕ) (r : List ℝ) (h : i ≠ u) :
    (M.set i r).getD u [] = M.getD u [] := by
  simp [List.getD_eq_getElem?_getD, List.getElem?_set_ne h]

theorem getD_set_self (M : List (List ℝ)) (u : ℕ) (r : List ℝ) (h : u < M.length) :
    (M.set u r).getD u [] = r := by
  simp [List.getD_eq_getElem?_getD, List.getElem?_set, h]

theorem foldl_set_length (ps : List (ℕ × List ℝ)) (M : List (List ℝ)) :
    (ps.foldl (fun acc p => acc.set p.1 p.2) M).length = M.length := by
  induction ps generalizing M with
  | nil => rfl
  | cons p t ih => simp [List.foldl_cons, ih, List.length_set]

theorem setRows_length (M : List (List ℝ)) (ids : List ℕ) (rows : List (List ℝ)) :
    (setRows M ids rows).length = M.length :=
  foldl_set_length _ _

theorem setRows_map_getD (f : ℕ → List ℝ) (ids : List ℕ) (M : List (List ℝ)) (u : ℕ)
    (hu : u < M.length) :
    (setRows M ids (ids.map f)).getD u [] = if u ∈ ids then f u else M.getD u [] := by
  induction ids generalizing M with
  | nil => simp [setRows]
  | cons i t ih =>
    have hstep : setRows M (i :: t) ((i :: t).map f) = setRows (M.set i (f i)) t (t.map f) := by
      simp [setRows]
    rw [hstep]
    have hu' : u < (M.set i (f i)).length := by simpa [List.length_set] using hu
    rw [ih _ hu']
    by_cases hmem : u ∈ t
    · simp [hmem]
    · by_cases hiu : u = i
      · subst hiu
        rw [if_neg hmem, getD_set_self _ _ _ hu, if_pos (List.mem_cons_self _ _)]
      · rw [if_neg hmem, getD_set_ne _ _ _ _ (fun hc => hiu hc.symm),
          if_neg (by simp [hmem, hiu])]

theorem scatterFold_length (f : ℕ → List ℝ) (batches : List (List ℕ))
    (init : List (List ℝ)) :
    (batches.foldl (fun M b => setRows M b (b.map f)) init).length = init.length := by
  induction batches generalizing init with
  | nil => rfl
  | cons b t ih => simp [List.foldl_cons, ih, setRows_length]

theorem scatterFold_getD_stable (f : ℕ → List ℝ) (batches : List (List ℕ))
    (init : List (List ℝ)) (u : ℕ) (hu : u < init.length)
    (hinit : init.getD u [] = f u) :
    (batches.foldl (fun M b => setRows M b (b.map f)) init).getD u [] = f u := by
  induction batches generalizing init with
  | nil => exact hinit
  | cons b t ih =>
    rw [List.foldl_cons]
    refine ih _ ?_ ?_
    · rw [setRows_length]; exact hu
    · rw [setRows_map_getD f b init u hu]
      by_cases h : u ∈ b
      · rw [if_pos h]
      · rw [if_neg h]; exact hinit

theorem scatterFold_getD_of_mem (f : ℕ → List ℝ) (batches : List (List ℕ))
    (init : List (List ℝ)) (u : ℕ) (hu : u < init.length)
    (hmem : u ∈ batches.flatten) :
    (batches.foldl (fun M b => setRows M b (b.map f)) init).getD u [] = f u := by
  induction batches generalizing init with
  | nil => simp at hmem
  | cons b t ih =>
    rw [List.foldl_cons]
    by_cases h : u ∈ t.flatten
    · exact ih (setRows init b (b.map f)) (by rw [setRows_length]; exact hu) h
    · have hub : u ∈ b := by
        rcases List.mem_flatten.mp hmem with ⟨s, hs, hus⟩
        rcases List.mem_cons.mp hs with rfl | hst
        · exact hus
        · exact absurd (List.mem_flatten.mpr ⟨s, hst, hus⟩) h
      refine scatterFold_getD_stable f t _ u ?_ ?_
      · rw [setRows_length]; exact hu
      · rw [setRows_map_getD f b init u hu]
        simp [hub]

theorem scatterFold_getD_or (f : ℕ → List ℝ) (batches : List (List ℕ))
    (init : List (List ℝ)) (u : ℕ) (hu : u < init.length) :
    (batches.foldl (fun M b => setRows M b (b.map f)) init).getD u [] = init.getD u []
      ∨ (batches.foldl (fun M b => setRows M b (b.map f)) init).getD u [] = f u := by
  induction batches generalizing init with
  | nil => left; rfl
  | cons b t ih =>
    rw [List.foldl_cons]
    rcases ih (setRows init b (b.map f)) (by rw [setRows_length]; exact hu) with h | h
    · rw [h, setRows_map_getD f b init u hu]
      by_cases hb : u ∈ b
      · right; simp [hb]
      · left; simp [hb]
    · right; exact h

/-! ### Lemmas about zero padding -/

theorem padTo_length (n : ℕ) (v : List ℝ) (h : v.length ≤ n) :
    (padTo n v).length = n := by
  simp [padTo]
  omega

theorem padTo_getD_of_le (n : ℕ) (v : List ℝ) (c : ℕ) (hc : v.length ≤ c) :
    (padTo n v).getD c 0 = 0 := by
  rw [padTo, List.getD_append_right _ _ _ _ hc]
  simp only [List.getD_eq_getElem?_getD, List.getElem?_replicate]
  split <;> rfl

theorem padTo_getD_of_lt (n : ℕ) (v : List ℝ) (c : ℕ) (hc : c < v.length) :
    (padTo n v).getD c 0 = v.getD c 0 := by
  rw [padTo, List.getD_append _ _ _ _ hc]

/-! ### Width lemmas -/

theorem dense_length (p : DenseParams) (x : List ℝ) (outs : ℕ)
    (hw : p.weights.length = outs) (hb : p.bias.length = outs) :
    (dense p x).length = outs := by
  simp [dense, List.length_zipWith, hw, hb]

theorem denseRelu_length (p : DenseParams) (x : List ℝ) (outs : ℕ)
    (hw : p.weights.length = outs) (hb : p.bias.length = outs) :
    (denseRelu p x).length = outs := by
  simp [denseRelu, relu, dense_length p x outs hw hb]

theorem batchNorm_length (p : BNParams) (x : List ℝ) (n : ℕ)
    (h : BNWF p n) (hx : x.length = n) : (batchNorm p x).length = n := by
  obtain ⟨h1, h2, h3, h4⟩ := h
  simp [batchNorm, List.length_zipWith, List.length_zip, h1, h2, h3, h4, hx]

theorem ratingTower_length (p : MLPParams) (x : List ℝ) (ins f nf : ℕ)
    (h : MLPWF p ins f nf) : (ratingTower p x).length = nf := by
  obtain ⟨_, _, hd3, hbn⟩ := h
  rw [ratingTower]
  exact batchNorm_length _ _ _ hbn (denseRelu_length _ _ _ hd3.1 hd3.2.1)

theorem attnLogits_length (p : AttnParams) (hs : List (List ℝ)) (rh : List ℝ) :
    (attnLogits p hs rh).length = hs.length := by
  simp [attnLogits]

theorem getD_row_length (M : List (List ℝ)) (n w u : ℕ) (hlen : M.length = n)
    (hrows : ∀ r ∈ M, r.length = w) (hu : u < n) : (M.getD u []).length = w := by
  have hu' : u < M.length := by omega
  rw [List.getD_eq_getElem _ _ hu']
  exact hrows _ (List.getElem_mem hu')

theorem textProcessor_length_le (encode : List (List ℕ) → List (List ℝ))
    (training : Bool) (mask : List (List ℝ)) (revs : List (List ℕ))
    (henc : (encode revs).length = revs.length) :
    (textProcessor encode training mask revs).length ≤ revs.length := by
  rw [textProcessor]
  cases training with
  | false => simp [henc]
  | true => simp [List.length_zipWith, henc]

theorem itemAttentionI_length_le (θ : HRDRParams) (ν : Noise) (d : EntityData)
    (henc : ∀ revs, (θ.itemEncode revs).length = revs.length) :
    (itemAttentionI θ ν d).length ≤ d.reviews.length := by
  rw [itemAttentionI, maskedSoftmax_length, attnLogits_length, itemReviewFeats]
  exact textProcessor_length_le _ _ _ _ (henc d.reviews)

theorem userOpinion_length (θ : HRDRParams) (training : Bool) (ν : Noise) (d : EntityData)
    (hw : θ.ou.weights.length = θ.nFactors) (hb : θ.ou.bias.length = θ.nFactors) :
    (userOpinion θ training ν d).length = θ.nFactors := by
  rw [userOpinion]
  exact dense_length _ _ _ hw hb

theorem itemOpinionI_length (θ : HRDRParams) (training : Bool) (ν : Noise) (d : EntityData)
    (hw : θ.oi.weights.length = θ.nFactors) (hb : θ.oi.bias.length = θ.nFactors) :
    (itemOpinionI θ training ν d).length = θ.nFactors := by
  rw [itemOpinionI]
  exact dense_length _ _ _ hw hb

theorem pu_length (θ : HRDRParams) (training : Bool) (ν : Noise) (u : ℕ) (d : EntityData)
    (fu : ℕ) (hU : MLPWF θ.userMLP θ.nItems fu θ.nFilters)
    (hou : θ.ou.weights.length = θ.nFactors) (houb : θ.ou.bias.length = θ.nFactors)
    (hel : θ.userEmb.length = θ.nUsers)
    (her : ∀ r ∈ θ.userEmb, r.length = θ.idEmbeddingSize)
    (hu : u < θ.nUsers) :
    (pu θ training ν u d).length = fusedDim θ := by
  have h1 : (userRatingFeat θ d).length = θ.nFilters := by
    rw [userRatingFeat]; exact ratingTower_length _ _ _ _ _ hU
  have h2 := userOpinion_length θ training ν d hou houb
  have h3 := getD_row_length θ.userEmb θ.nUsers θ.idEmbeddingSize u hel her hu
  rw [pu, fusedDim, List.length_append, List.length_append, h1, h2, h3]
  omega

theorem qi_length (θ : HRDRParams) (training : Bool) (ν : Noise) (i : ℕ) (d : EntityData)
    (fi : ℕ) (hI : MLPWF θ.itemMLP θ.nUsers fi θ.nFilters)
    (hoi : θ.oi.weights.length = θ.nFactors) (hoib : θ.oi.bias.length = θ.nFactors)
    (hel : θ.itemEmb.length = θ.nItems)
    (her : ∀ r ∈ θ.itemEmb, r.length = θ.idEmbeddingSize)
    (hi : i < θ.nItems) :
    (qi θ training ν i d).length = fusedDim θ := by
  have h1 : (itemRatingFeatI θ d).length = θ.nFilters := by
    rw [itemRatingFeatI]; exact ratingTower_length _ _ _ _ _ hI
  have h2 := itemOpinionI_length θ training ν d hoi hoib
  have h3 := getD_row_length θ.itemEmb θ.nItems θ.idEmbeddingSize i hel her hi
  rw [qi, fusedDim, List.length_append, List.length_append, h1, h2, h3]
  omega

/-- Any index of an all-zero replicate row reads zero. -/
theorem getD_replicate_zero (n c : ℕ) : (List.replicate n (0 : ℝ)).getD c 0 = 0 := by
  simp only [List.getD_eq_getElem?_getD, List.getElem?_replicate]
  split <;> rfl

/-! ### Lemmas about the embedding-matrix construction -/

theorem zeroReserved_getD (e : ℕ) (M : List (List ℝ)) (k : ℕ) (hk : k < 4)
    (hkM : k < M.length) :
    (zeroReserved e M).getD k [] = List.replicate e 0 := by
  interval_cases k
  · rw [zeroReserved, getD_set_ne _ 3 0 _ (by decide), getD_set_ne _ 2 0 _ (by decide),
      getD_set_ne _ 1 0 _ (by decide)]
    exact getD_set_self _ _ _ hkM
  · rw [zeroReserved, getD_set_ne _ 3 1 _ (by decide), getD_set_ne _ 2 1 _ (by decide)]
    refine getD_set_self _ _ _ ?_
    rw [List.length_set]; exact hkM
  · rw [zeroReserved, getD_set_ne _ 3 2 _ (by decide)]
    refine getD_set_self _ _ _ ?_
    rw [List.length_set, List.length_set]; exact hkM
  · rw [zeroReserved]
    refine getD_set_self _ _ _ ?_
    rw [List.length_set, List.length_set, List.length_set]; exact hkM

theorem applyPretrained_go_fst_getD (vocab : List (String × ℕ))
    (pre : String → Option (List ℝ)) (k : ℕ) (acc : List (List ℝ) × ℕ)
    (h : ∀ wi ∈ vocab, ∀ v, pre wi.1 = some v → wi.2 ≠ k) :
    ((vocab.foldl
      (fun acc wi =>
        match pre wi.1 with
        | some v => (acc.1.set wi.2 v, acc.2)
        | none => (acc.1, acc.2 + 1)) acc).1).getD k []
      = (acc.1).getD k [] := by
  induction vocab generalizing acc with
  | nil => rfl
  | cons wi t ih =>
    rw [List.foldl_cons]
    cases hv : pre wi.1 with
    | none =>
      simp only [hv]
      exact ih _ (fun x hx v hxv => h x (List.mem_cons_of_mem _ hx) v hxv)
    | some v =>
      simp only [hv]
      rw [ih _ (fun x hx w hxw => h x (List.mem_cons_of_mem _ hx) w hxw)]
      exact getD_set_ne _ _ _ _ (h wi (List.mem_cons_self _ _) v hv)

theorem applyPretrained_fst_getD (M : List (List ℝ)) (vocab : List (String × ℕ))
    (pre : String → Option (List ℝ)) (k : ℕ)
    (h : ∀ wi ∈ vocab, ∀ v, pre wi.1 = some v → wi.2 ≠ k) :
    ((applyPretrained M vocab pre).1).getD k [] = M.getD k [] :=
  applyPretrained_go_fst_getD vocab pre k (M, 0) h

theorem applyPretrained_go_snd (vocab : List (String × ℕ))
    (pre : String → Option (List ℝ)) (acc : List (List ℝ) × ℕ) :
    (vocab.foldl
      (fun acc wi =>
        match pre wi.1 with
        | some v => (acc.1.set wi.2 v, acc.2)
        | none => (acc.1, acc.2 + 1)) acc).2
      = acc.2 + (vocab.filter (fun wi => (pre wi.1).isNone)).length := by
  induction vocab generalizing acc with
  | nil => simp
  | cons wi t ih =>
    rw [List.foldl_cons]
    cases hv : pre wi.1 with
    | none =>
      simp only [hv]
      rw [ih]
      simp [List.filter_cons, hv]
      omega
    | some v =>
      simp only [hv]
      rw [ih]
      simp [List.filter_cons, hv]

theorem applyPretrained_snd (M : List (List ℝ)) (vocab : List (String × ℕ))
    (pre : String → Option (List ℝ)) :
    (applyPretrained M vocab pre).2
      = (vocab.filter (fun wi => (pre wi.1).isNone)).length := by
  rw [applyPretrained, applyPretrained_go_snd]
  simp

/-! ### Claim theorems -/

/-- C3: for every attention computation over an entity with at least one
valid review (`1 ≤ count ≤ number of review slots`), the masked-softmax
attention output assigns exactly zero weight to every slot at index at or
beyond the entity's review count, and the weights over the slots below
the count sum to 1 (exactly, in the idealized real-arithmetic
embedding; the spec states the sum up to floating-point tolerance). -/
theorem attention_mask_zero_and_sum_one (logits : List ℝ) (count : ℕ)
    (h1 : 1 ≤ count) (h2 : count ≤ logits.length) :
    (∀ k, count ≤ k → (maskedSoftmax logits count).getD k 0 = 0)
      ∧ ((maskedSoftmax logits count).take count).sum = 1 :=
  ⟨fun k hk => maskedSoftmax_getD_of_le logits count k hk,
   maskedSoftmax_take_sum logits count h1 h2⟩

/-- Witness for C3 at the concrete logits `[0, 0]` with review count 1. -/
theorem attention_mask_zero_and_sum_one_witness :
    (∀ k, 1 ≤ k → (maskedSoftmax [0, 0] 1).getD k 0 = 0)
      ∧ ((maskedSoftmax [0, 0] 1).take 1).sum = 1 :=
  attention_mask_zero_and_sum_one [0, 0] 1 (by decide) (by decide)

/-- C5: the graph's training output `x_ij` (line 176) equals the mean over
the batch of `-log(sigmoid(score_i - score_j))` where each branch score is
`specScore`, the spec's formula `W1 · (pu ⊙ q) + user_bias[u] +
item_bias[item] + global_bias` with the bias-free weight vector `W1`, and
the two branch scores share the same `pu`, the same `W1` and the same
user-bias lookup. -/
theorem training_loss_is_bpr (θ : HRDRParams) (training : Bool)
    (batch : List TrainExample) :
    x_ij θ training batch = specLoss θ training batch := by
  rw [x_ij, specLoss]
  simp only [r_i, r_j, specScore]

/-- C10: when the optional `seed` argument is `None`, the constructor
fails (an `AttributeError` surfaces from the unconditional use of
`self.rng` on line 39, which lines 35-36 assign only under
`if seed is not None`), before any part of the graph is built; this holds
for every draw function, embedding size, vocabulary and pretrained
mapping, so the nominally optional seed is in fact required. -/
theorem missing_seed_raises (draw : ℕ → List (List ℝ)) (e : ℕ)
    (vocab : List (String × ℕ)) (pre : Option (String → Option (List ℝ))) :
    buildEmbeddingMatrix draw none e vocab pre
      = Except.error "AttributeError: Model object has no attribute rng" := rfl

/-- C4 counterexample: a five-row embedding matrix with the matching
five-token vocabulary `vocabC` (so line 40's zeroing of rows 0-3 is in
range) and a pretrained mapping that contains the row-0 token "a": after
the override, row 0 is `[1]`, not the zero vector — the zeroing (line 40)
happens before the override loop (lines 41-48), which overwrites reserved
rows whose token the mapping covers. -/
theorem reserved_row_overwritten :
    ((applyPretrained (zeroReserved 1 [[3], [4], [5], [6], [7]]) vocabC preC).1).getD 0 []
      ≠ List.replicate 1 (0 : ℝ) := by
  simp +decide only [applyPretrained, zeroReserved, vocabC, preC, List.foldl_cons,
    List.foldl_nil, List.set]
  norm_num

/-- C4 as amended: rows 0-3 of the word-embedding table are the zero
vector immediately after the default initialization is zeroed (line 40),
and they are still the zero vector after the pretrained override provided
the pretrained mapping contains no vocabulary token whose index is below
4 (the override runs after the zeroing, so a mapping that covers a
reserved-row token overwrites that row). -/
theorem reserved_rows_zero_amended (e : ℕ) (M : List (List ℝ))
    (vocab : List (String × ℕ)) (pre : String → Option (List ℝ)) (k : ℕ)
    (hk : k < 4) (hkM : k < M.length)
    (hres : ∀ wi ∈ vocab, wi.2 < 4 → pre wi.1 = none) :
    (zeroReserved e M).getD k [] = List.replicate e 0
      ∧ ((applyPretrained (zeroReserved e M) vocab pre).1).getD k []
          = List.replicate e 0 := by
  have hz := zeroReserved_getD e M k hk hkM
  refine ⟨hz, ?_⟩
  rw [applyPretrained_fst_getD, hz]
  intro wi hwi v hv hk2
  have := hres wi hwi (by omega)
  rw [this] at hv
  exact Option.noConfusion hv

/-- Witness for C4 (amended) at a five-row matrix, the vocabulary
`[("a", 0), ("b", 4)]` and a mapping covering only "b" (row 4): row 0
stays zero through init and override. -/
theorem reserved_rows_zero_amended_witness :
    (zeroReserved 1 [[3], [4], [5], [6], [7]]).getD 0 [] = List.replicate 1 0
      ∧ ((applyPretrained (zeroReserved 1 [[3], [4], [5], [6], [7]]) vocabB preB).1).getD 0 []
          = List.replicate 1 0 := by
  refine reserved_rows_zero_amended 1 _ vocabB preB 0 (by decide) (by decide) ?_
  intro wi hwi hlt
  simp only [vocabB, List.mem_cons, List.not_mem_nil, or_false] at hwi
  rcases hwi with rfl | rfl
  · simp [preB]
  · norm_num at hlt

/-- C9: for every pretrained mapping, a vocabulary token absent from the
mapping never causes the override loop to fail (`applyPretrained` is a
total function and `Model.__init__` only counts the miss, lines 47-48):
its word-embedding row keeps the base initialization unchanged, and the
reported `oov_count` equals the number of vocabulary tokens the mapping
misses.  (The row-preservation needs the vocabulary's indices to be
distinct, which holds for `vocab.tok2idx` since it enumerates distinct
rows.) -/
theorem oov_rows_kept_and_counted (M : List (List ℝ)) (vocab : List (String × ℕ))
    (pre : String → Option (List ℝ)) (w : String) (k : ℕ)
    (hnodup : (vocab.map Prod.snd).Nodup) (hmem : (w, k) ∈ vocab)
    (hoov : pre w = none) :
    ((applyPretrained M vocab pre).1).getD k [] = M.getD k []
      ∧ (applyPretrained M vocab pre).2
          = (vocab.filter (fun wi => (pre wi.1).isNone)).length := by
  refine ⟨?_, applyPretrained_snd M vocab pre⟩
  refine applyPretrained_fst_getD M vocab pre k ?_
  intro wi hwi v hv hk2
  have hinj := List.inj_on_of_nodup_map hnodup
  have : wi = (w, k) := hinj hwi hmem (by simpa using hk2)
  rw [this] at hv
  simp only at hv
  rw [hoov] at hv
  exact Option.noConfusion hv

/-- Witness for C9: token "a" (row 0) is missing from the mapping `preB`;
its row keeps the base value `[3]` and the OOV count is 1. -/
theorem oov_rows_kept_and_counted_witness :
    ((applyPretrained [[3], [4], [5], [6], [7]] vocabB preB).1).getD 0 []
        = ([[3], [4], [5], [6], [7]] : List (List ℝ)).getD 0 []
      ∧ (applyPretrained [[3], [4], [5], [6], [7]] vocabB preB).2
          = (vocabB.filter (fun wi => (preB wi.1).isNone)).length := by
  refine oov_rows_kept_and_counted _ vocabB preB "a" 0 ?_ ?_ ?_
  · simp [vocabB]
  · simp [vocabB]
  · simp [preB]

/-- C8: the rating tower is the three-Dense-layer (widths `f`, `f // 2`,
`n_filters`, ReLU) plus batch-normalization pipeline `ratingTower`
(`MLPWF` states exactly those widths), so the output width of both the
user tower and the item tower equals `n_filters`; one item tower instance
(`l_item_mlp`, parameter field `itemMLP`) is applied in both the
positive-item and negative-item branches, so identical item rating
vectors produce identical rating features in the two branches. -/
theorem rating_tower_widths_and_shared (θ : HRDRParams) (fu fi : ℕ)
    (hU : MLPWF θ.userMLP θ.nItems fu θ.nFilters)
    (hI : MLPWF θ.itemMLP θ.nUsers fi θ.nFilters)
    (x y : List ℝ) (di dj : EntityData) (hr : di.rating = dj.rating) :
    (ratingTower θ.userMLP x).length = θ.nFilters
      ∧ (ratingTower θ.itemMLP y).length = θ.nFilters
      ∧ itemRatingFeatI θ di = itemRatingFeatJ θ dj := by
  refine ⟨ratingTower_length _ _ _ _ _ hU, ratingTower_length _ _ _ _ _ hI, ?_⟩
  rw [itemRatingFeatI, itemRatingFeatJ, hr]

/-- Witness for C8 at the concrete parameters `thetaW` (tower widths
`f = 2`, `f // 2 = 1`, `n_filters = 1`) and the concrete entity `dataW`. -/
theorem rating_tower_widths_and_shared_witness :
    (ratingTower thetaW.userMLP [1]).length = thetaW.nFilters
      ∧ (ratingTower thetaW.itemMLP [1]).length = thetaW.nFilters
      ∧ itemRatingFeatI thetaW dataW = itemRatingFeatJ thetaW dataW := by
  refine rating_tower_widths_and_shared thetaW 2 2 ?_ ?_ [1] [1] dataW dataW rfl
  · simp [MLPWF, DenseWF, BNWF, thetaW, mlpW, denseTwo, denseTwoIn, denseOne, bnOne]
  · simp [MLPWF, DenseWF, BNWF, thetaW, mlpW, denseTwo, denseTwoIn, denseOne, bnOne]

/-- C1: for every trained parameter set and every (user `u`, item `i`)
pair that the batch iterators cover (each id appears in some batch, per
the data-provider contract), the serving-time score `W1 · (P[u] ⊙ Q[i]) +
bu[u] + bi[i] + mu` computed from the matrices returned by `get_weights`
equals the score `r_i` computed through the full forward graph for the
same parameters, the same per-entity inputs and the same dropout
realization, with the call-time `training=False` flag of the
materialization — exactly, in the idealized real-arithmetic embedding. -/
theorem serving_score_matches_graph (θ : HRDRParams) (udata idata : ℕ → EntityData)
    (νU νI : ℕ → Noise) (userBatches itemBatches : List (List ℕ)) (maxNumReview : ℕ)
    (u i : ℕ) (hu : u < θ.nUsers) (hi : i < θ.nItems)
    (humem : u ∈ userBatches.flatten) (himem : i ∈ itemBatches.flatten) :
    (let w := get_weights θ udata idata νU νI userBatches itemBatches maxNumReview;
      servingScore w.1 w.2.1 w.2.2.1 w.2.2.2.1 w.2.2.2.2.1 w.2.2.2.2.2.1 u i)
      = r_i θ false (νU u) (νI i) u (udata u) i (idata i) := by
  have hP : (materializeP θ udata νU userBatches).getD u []
      = pu θ false (νU u) u (udata u) := by
    rw [materializeP]
    exact scatterFold_getD_of_mem _ _ _ _ (by simpa using hu) humem
  have hQ : (materializeQ θ idata νI itemBatches).getD i []
      = qi θ false (νI i) i (idata i) := by
    rw [materializeQ]
    exact scatterFold_getD_of_mem _ _ _ _ (by simpa using hi) himem
  show servingScore (materializeP θ udata νU userBatches)
      (materializeQ θ idata νI itemBatches) θ.w1 θ.userBias θ.itemBias θ.globalBias u i
      = r_i θ false (νU u) (νI i) u (udata u) i (idata i)
  rw [servingScore, hP, hQ, r_i]

/-- Witness for C1 at the concrete model `thetaW`, a single one-user and
one-item batch, and the concrete entity data and noise. -/
theorem serving_score_matches_graph_witness :
    (let w := get_weights thetaW (fun _ => dataW) (fun _ => dataW) (fun _ => noiseW)
        (fun _ => noiseW) [[0]] [[0]] 2;
      servingScore w.1 w.2.1 w.2.2.1 w.2.2.2.1 w.2.2.2.2.1 w.2.2.2.2.2.1 0 0)
      = r_i thetaW false noiseW noiseW 0 dataW 0 dataW :=
  serving_score_matches_graph thetaW (fun _ => dataW) (fun _ => dataW) (fun _ => noiseW)
    (fun _ => noiseW) [[0]] [[0]] 2 0 0 (by decide) (by decide) (by decide) (by decide)

/-- The masked softmax over a single slot with one valid review is `[1]`. -/
theorem maskedSoftmax_singleton (x : ℝ) : maskedSoftmax [x] 1 = [1] := by
  simp [maskedSoftmax, maskedSoftmaxAux, div_self, Real.exp_ne_zero]

/-- C2 is refuted by the code: the positive-item and negative-item
branches do NOT share one parameter store.  At the reachable parameter
assignment `thetaW` (positive projection kernel `[[1]]`, negative
projection kernel `[[2]]` — the two `Dense` instances of lines 134-143
are initialized and trained independently), the two branches evaluated on
the same (review features, rating feature, review count) input produce
different opinion vectors. -/
theorem item_branches_not_shared :
    itemOpinionI thetaW false noiseW dataW ≠ itemOpinionJ thetaW false noiseW dataW := by
  have hi : itemOpinionI thetaW false noiseW dataW = [1] := by
    norm_num [itemOpinionI, itemAttentionI, itemReviewFeats, itemRatingFeatI,
      textProcessor, encodeOne, thetaW, dataW, noiseW, attnLogits,
      maskedSoftmax_singleton, dense, dot, hadamard, relu, vecScale,
      sumAlongSlots, vecAdd, dropout, denseOne, denseDouble, attnOne]
  have hj : itemOpinionJ thetaW false noiseW dataW = [2] := by
    norm_num [itemOpinionJ, itemAttentionJ, itemReviewFeats, itemRatingFeatJ,
      textProcessor, encodeOne, thetaW, dataW, noiseW, attnLogits,
      maskedSoftmax_singleton, dense, dot, hadamard, relu, vecScale,
      sumAlongSlots, vecAdd, dropout, denseOne, denseDouble, attnOne]
  rw [hi, hj]
  intro h
  have := List.head_eq_of_cons_eq h
  norm_num at this

/-- C7 is refuted by the code: materialization is not dropout-free.  The
text processors are wired with the frozen `training=True` flag (lines
77-79), so their dropout stays active inside `get_weights` even though it
invokes the sub-models with `training=False`; the materialized `P`
depends on the dropout draw, and two runs that draw different masks
(`noiseW` vs `noiseW2`) return different matrices. -/
theorem get_weights_depends_on_dropout :
    materializeP thetaW (fun _ => dataW) (fun _ => noiseW) [[0]]
      ≠ materializeP thetaW (fun _ => dataW) (fun _ => noiseW2) [[0]] := by
  have e1 : materializeP thetaW (fun _ => dataW) (fun _ => noiseW) [[0]]
      = [pu thetaW false noiseW 0 dataW] := by
    simp [materializeP, setRows, thetaW]
  have e2 : materializeP thetaW (fun _ => dataW) (fun _ => noiseW2) [[0]]
      = [pu thetaW false noiseW2 0 dataW] := by
    simp [materializeP, setRows, thetaW]
  have h1 : userOpinion thetaW false noiseW dataW = [1] := by
    norm_num [userOpinion, userAttention, userReviewFeats, userRatingFeat,
      textProcessor, encodeOne, thetaW, dataW, noiseW, attnLogits,
      maskedSoftmax_singleton, dense, dot, hadamard, relu, vecScale,
      sumAlongSlots, vecAdd, dropout, denseOne, attnOne]
  have h2 : userOpinion thetaW false noiseW2 dataW = [2] := by
    norm_num [userOpinion, userAttention, userReviewFeats, userRatingFeat,
      textProcessor, encodeOne, thetaW, dataW, noiseW2, attnLogits,
      maskedSoftmax_singleton, dense, dot, hadamard, relu, vecScale,
      sumAlongSlots, vecAdd, dropout, denseOne, attnOne]
  intro h
  rw [e1, e2] at h
  have hrow : pu thetaW false noiseW 0 dataW = pu thetaW false noiseW2 0 dataW := by
    simpa using h
  rw [pu, pu, h1, h2] at hrow
  have happ := List.append_cancel_left hrow
  have := List.head_eq_of_cons_eq happ
  norm_num at this

/-- C6: for every valid hyperparameter combination (expressed as the
shape contract the trained layers satisfy by construction) and every
dataset, `get_weights` returns `P` of shape `(n_users, D)` and `Q` of
shape `(n_items, D)` with `D = fusedDim θ = n_filters + n_factors +
id_embedding_size`, and `A` of shape `(n_items, max_num_review)` in
which, for every item with fewer than `max_num_review` reviews, every
column at index at or beyond its review count is exactly 0.  `hdata`
is the `get_data` contract (modelled from the spec): at most
`max_num_review` reviews are fetched per item. -/
theorem get_weights_shapes (θ : HRDRParams) (udata idata : ℕ → EntityData)
    (νU νI : ℕ → Noise) (userBatches itemBatches : List (List ℕ)) (maxNumReview : ℕ)
    (fu fi : ℕ)
    (hU : MLPWF θ.userMLP θ.nItems fu θ.nFilters)
    (hI : MLPWF θ.itemMLP θ.nUsers fi θ.nFilters)
    (hou : θ.ou.weights.length = θ.nFactors) (houb : θ.ou.bias.length = θ.nFactors)
    (hoi : θ.oi.weights.length = θ.nFactors) (hoib : θ.oi.bias.length = θ.nFactors)
    (hUel : θ.userEmb.length = θ.nUsers)
    (hUer : ∀ r ∈ θ.userEmb, r.length = θ.idEmbeddingSize)
    (hIel : θ.itemEmb.length = θ.nItems)
    (hIer : ∀ r ∈ θ.itemEmb, r.length = θ.idEmbeddingSize)
    (henc : ∀ revs, (θ.itemEncode revs).length = revs.length)
    (hdata : ∀ j, (idata j).reviews.length ≤ maxNumReview) :
    (let w := get_weights θ udata idata νU νI userBatches itemBatches maxNumReview;
      w.1.length = θ.nUsers
        ∧ (∀ u, u < θ.nUsers → (w.1.getD u []).length = fusedDim θ)
        ∧ w.2.1.length = θ.nItems
        ∧ (∀ i, i < θ.nItems → (w.2.1.getD i []).length = fusedDim θ)
        ∧ w.2.2.2.2.2.2.length = θ.nItems
        ∧ (∀ i, i < θ.nItems → (w.2.2.2.2.2.2.getD i []).length = maxNumReview)
        ∧ (∀ i, i < θ.nItems → (idata i).numReviews < maxNumReview →
            ∀ c, (idata i).numReviews ≤ c → (w.2.2.2.2.2.2.getD i []).getD c 0 = 0)) := by
  show (materializeP θ udata νU userBatches).length = θ.nUsers
      ∧ (∀ u, u < θ.nUsers →
          ((materializeP θ udata νU userBatches).getD u []).length = fusedDim θ)
      ∧ (materializeQ θ idata νI itemBatches).length = θ.nItems
      ∧ (∀ i, i < θ.nItems →
          ((materializeQ θ idata νI itemBatches).getD i []).length = fusedDim θ)
      ∧ (materializeA θ idata νI itemBatches maxNumReview).length = θ.nItems
      ∧ (∀ i, i < θ.nItems →
          ((materializeA θ idata νI itemBatches maxNumReview).getD i []).length
            = maxNumReview)
      ∧ (∀ i, i < θ.nItems → (idata i).numReviews < maxNumReview →
          ∀ c, (idata i).numReviews ≤ c →
            ((materializeA θ idata νI itemBatches maxNumReview).getD i []).getD c 0 = 0)
  refine ⟨?_, ?_, ?_, ?_, ?_, ?_, ?_⟩
  · rw [materializeP, scatterFold_length]
    simp
  · intro u hu
    rw [materializeP]
    rcases scatterFold_getD_or (fun u => pu θ false (νU u) u (udata u)) userBatches
        (List.replicate θ.nUsers (List.replicate (fusedDim θ) 0)) u (by simpa using hu)
      with h | h
    · rw [h, getD_replicate_of_lt _ _ _ _ (by simpa using hu)]
      simp
    · rw [h]
      exact pu_length θ false (νU u) u (udata u) fu hU hou houb hUel hUer hu
  · rw [materializeQ, scatterFold_length]
    simp
  · intro i hi
    rw [materializeQ]
    rcases scatterFold_getD_or (fun i => qi θ false (νI i) i (idata i)) itemBatches
        (List.replicate θ.nItems (List.replicate (fusedDim θ) 0)) i (by simpa using hi)
      with h | h
    · rw [h, getD_replicate_of_lt _ _ _ _ (by simpa using hi)]
      simp
    · rw [h]
      exact qi_length θ false (νI i) i (idata i) fi hI hoi hoib hIel hIer hi
  · rw [materializeA, scatterFold_length]
    simp
  · intro i hi
    rw [materializeA]
    rcases scatterFold_getD_or
        (fun j => padTo maxNumReview (itemAttentionI θ (νI j) (idata j))) itemBatches
        (List.replicate θ.nItems (List.replicate maxNumReview 0)) i (by simpa using hi)
      with h | h
    · rw [h, getD_replicate_of_lt _ _ _ _ (by simpa using hi)]
      simp
    · rw [h]
      exact padTo_length _ _
        (le_trans (itemAttentionI_length_le θ (νI i) (idata i) henc) (hdata i))
  · intro i hi hcnt c hc
    rw [materializeA]
    rcases scatterFold_getD_or
        (fun j => padTo maxNumReview (itemAttentionI θ (νI j) (idata j))) itemBatches
        (List.replicate θ.nItems (List.replicate maxNumReview 0)) i (by simpa using hi)
      with h | h
    · rw [h, getD_replicate_of_lt _ _ _ _ (by simpa using hi)]
      exact getD_replicate_zero _ _
    · rw [h]
      by_cases hcl : c < (itemAttentionI θ (νI i) (idata i)).length
      · rw [padTo_getD_of_lt _ _ _ hcl, itemAttentionI]
        exact maskedSoftmax_getD_of_le _ _ _ hc
      · exact padTo_getD_of_le _ _ _ (by omega)

/-- Witness for C6 at the concrete model `thetaW` (all widths one,
`D = 3`), constant entity data with one review, one-id batches and
`max_num_review = 2`. -/
theorem get_weights_shapes_witness :
    (let w := get_weights thetaW (fun _ => dataW) (fun _ => dataW) (fun _ => noiseW)
        (fun _ => noiseW) [[0]] [[0]] 2;
      w.1.length = thetaW.nUsers
        ∧ (∀ u, u < thetaW.nUsers → (w.1.getD u []).length = fusedDim thetaW)
        ∧ w.2.1.length = thetaW.nItems
        ∧ (∀ i, i < thetaW.nItems → (w.2.1.getD i []).length = fusedDim thetaW)
        ∧ w.2.2.2.2.2.2.length = thetaW.nItems
        ∧ (∀ i, i < thetaW.nItems → (w.2.2.2.2.2.2.getD i []).length = 2)
        ∧ (∀ i, i < thetaW.nItems → dataW.numReviews < 2 →
            ∀ c, dataW.numReviews ≤ c → (w.2.2.2.2.2.2.getD i []).getD c 0 = 0)) := by
  refine get_weights_shapes thetaW (fun _ => dataW) (fun _ => dataW) (fun _ => noiseW)
    (fun _ => noiseW) [[0]] [[0]] 2 2 2 ?_ ?_ ?_ ?_ ?_ ?_ ?_ ?_ ?_ ?_ ?_ ?_
  · simp [MLPWF, DenseWF, BNWF, thetaW, mlpW, denseTwo, denseTwoIn, denseOne, bnOne]
  · simp [MLPWF, DenseWF, BNWF, thetaW, mlpW, denseTwo, denseTwoIn, denseOne, bnOne]
  · simp [thetaW, denseOne]
  · simp [thetaW, denseOne]
  · simp [thetaW, denseOne]
  · simp [thetaW, denseOne]
  · simp [thetaW]
  · simp [thetaW]
  · simp [thetaW]
  · simp [thetaW]
  · intro revs
    simp [thetaW, encodeOne]
  · intro j
    simp [dataW]

end

end HRDR
